import Mathlib

/-!
# Verification of the `logos` text-analysis package

Shallow embedding of `src/logos.go` (and the traversal helper of
`src/logos_test.go`). Go strings are modelled as `List Char`; Go `int`
indices that only ever grow from 0 are modelled as `Nat`, the signed
n-gram size as `Int`. Go's `float64` weights appear in the claims only as
small integer counts and their exact ratios, so they are modelled as `ℚ`.

Two Go-semantics points the embedding makes explicit:

* All methods of `StringPublicationBody` use **value receivers**: the
  method body mutates a *copy* of the receiver and the caller's value is
  unchanged. Each method is embedded as a function returning its result
  together with the receiver copy's final state; call sites (the loops in
  `WordCount`, `countLinesWords`, `ConstructMarkovMatrix`) discard that
  state, exactly as Go does.
* An index out of range panics in Go; a method that can panic returns
  `Option`, with `none` for the panic.

Loops of the form `for p.HasNextWord() { ... }` need not terminate, so
they are embedded with an explicit fuel parameter; `none` means the loop
did not finish within `fuel` iterations (or panicked).
-/

namespace Logos

/-- Translated from Go `unicode.IsPunct`, restricted to the Latin-1 range
(the full Unicode property table is out of scope; every input considered
in this development is ASCII). The Latin-1 code points of Unicode
category P are: `! " #`, `% & ' ( ) *`, `, - . /`, `: ;`, `? @`,
`[ \ ]`, `_`, the two curly braces (0x7B, 0x7D), and
`¡ § « ¶ · » ¿`. Note that `$ + < = > ^ | ~` and backtick are Unicode
*symbols*, not punctuation, so Go's `IsPunct` rejects them. -/
def goIsPunct (c : Char) : Bool :=
  let n := c.toNat
  decide ((33 ≤ n ∧ n ≤ 35) ∨ (37 ≤ n ∧ n ≤ 42) ∨ (44 ≤ n ∧ n ≤ 47) ∨
    (58 ≤ n ∧ n ≤ 59) ∨ (63 ≤ n ∧ n ≤ 64) ∨ (91 ≤ n ∧ n ≤ 93) ∨
    n = 95 ∨ n = 123 ∨ n = 125 ∨
    n = 161 ∨ n = 167 ∨ n = 171 ∨ n = 182 ∨ n = 183 ∨ n = 187 ∨ n = 191)

/-- Translated from Go `unicode.IsSpace`, restricted to the Latin-1 range:
tab, newline, vertical tab, form feed, carriage return, space, NEL (0x85)
and no-break space (0xA0). -/
def goIsSpace (c : Char) : Bool :=
  let n := c.toNat
  decide (n = 9 ∨ n = 10 ∨ n = 11 ∨ n = 12 ∨ n = 13 ∨ n = 32 ∨ n = 133 ∨ n = 160)

/-- `splitWords` from `src/logos.go`: `strings.FieldsFunc(line, f)` with
`f(c) = unicode.IsPunct(c) || unicode.IsSpace(c)`. `FieldsFunc` splits at
each run of code points satisfying `f` and never returns empty fields;
this is splitting at every separator and dropping the empty pieces. -/
def splitWords (line : List Char) : List (List Char) :=
  (line.splitOnP fun c => goIsPunct c || goIsSpace c).filter fun w => w ≠ []

/-- Helper for `scanLines`: `bufio.ScanLines` strips one trailing
carriage return from each line. -/
def dropCR (l : List Char) : List Char :=
  if l.getLast? = some '\r' then l.dropLast else l

/-- The line splitting performed by `bufio.Scanner` with the default
`ScanLines` split function, as used by `CreateStringPubBody` on its
`io.Reader`: tokens are the newline-separated lines, without the
newline, with one trailing `\r` stripped; a final newline does not
produce an extra empty token. -/
def scanLines (input : List Char) : List (List Char) :=
  let parts := input.splitOn '\n'
  (if parts.getLast? = some [] then parts.dropLast else parts).map dropCR

/-- `StringPublicationBody` from `src/logos.go`. -/
structure StringPublicationBody where
  Lines : List (List Char)
  Words : List (List (List Char))
  CurrentLine : Nat
  CurrentWord : Nat
deriving DecidableEq, Repr

/-- `HasNextLine` from `src/logos.go`: `len(s.Lines) > s.CurrentLine`. -/
def HasNextLine (s : StringPublicationBody) : Bool :=
  decide (s.Lines.length > s.CurrentLine)

/-- `NextLine` from `src/logos.go`. The method body reads
`s.Lines[s.CurrentLine]` (panic when out of range, modelled as `none`)
and increments `s.CurrentLine` on its receiver copy; the returned state
is that copy's final value, which Go's value receiver discards at the
call site. -/
def NextLine (s : StringPublicationBody) : Option (List Char × StringPublicationBody) :=
  match s.Lines.get? s.CurrentLine with
  | none => none
  | some res => some (res, { s with CurrentLine := s.CurrentLine + 1 })

/-- `HasNextWord` from `src/logos.go`: false when the line cursor is past
the last line, otherwise `len(s.Words[s.CurrentLine]) > s.CurrentWord ||
len(s.Lines) > s.CurrentLine+1`. (Go would panic if `Words` were shorter
than `Lines`; constructed bodies always have them the same length, and
the `getD` default is never reached on them.) -/
def HasNextWord (s : StringPublicationBody) : Bool :=
  if s.Lines.length ≤ s.CurrentLine then false
  else decide ((s.Words.getD s.CurrentLine []).length > s.CurrentWord) ||
    decide (s.Lines.length > s.CurrentLine + 1)

/-- `NextWord` from `src/logos.go`. The method body reads
`s.Words[s.CurrentLine][s.CurrentWord]` (panic modelled as `none`), then
tests `len(s.Words[s.CurrentLine]) < s.CurrentWord + 1`; only if that
holds does it move the receiver copy to the next line. There is no
branch incrementing `s.CurrentWord`. Note that whenever the read
succeeded, `s.CurrentWord < len`, so the test is false and the state is
returned unchanged. -/
def NextWord (s : StringPublicationBody) : Option (List Char × StringPublicationBody) :=
  match s.Words.get? s.CurrentLine with
  | none => none
  | some lineWords =>
    match lineWords.get? s.CurrentWord with
    | none => none
    | some word =>
      if lineWords.length < s.CurrentWord + 1 then
        some (word, { s with CurrentLine := s.CurrentLine + 1, CurrentWord := 0 })
      else
        some (word, s)

/-- `ResetSeeker` from `src/logos.go`: sets both `CurrentLine` and
`CurrentWord` of the receiver copy to 0 (a single combined reset). As
with the other methods, the value receiver means Go call sites discard
even this. -/
def ResetSeeker (s : StringPublicationBody) : StringPublicationBody :=
  { s with CurrentLine := 0, CurrentWord := 0 }

/-- The line-accumulation loop of `CreateStringPubBody`: for each scanned
line, keep the line and its `splitWords` tokens iff the token list is
non-empty. -/
def collectLines : List (List Char) → List (List Char) × List (List (List Char))
  | [] => ([], [])
  | line :: rest =>
    let lineWords := splitWords line
    let prev := collectLines rest
    if lineWords.length > 0 then (line :: prev.1, lineWords :: prev.2) else prev

/-- `CreateStringPubBody` from `src/logos.go`, taking the scanner's line
sequence. It filters out lines with no tokens, initialises both cursors
to 0, and always returns a `nil` error (second component `none`). -/
def CreateStringPubBody (input : List (List Char)) :
    StringPublicationBody × Option (List Char) :=
  let lw := collectLines input
  (⟨lw.1, lw.2, 0, 0⟩, none)

/-- The line-counting loop of `countLinesWords` in `src/logos_test.go`:
`for body.HasNextLine() { body.NextLine(); lines++ }`. The value receiver
means `body.NextLine()` leaves the caller's `body` unchanged, so the
recursive call is on the same state `p`; `fuel` bounds the number of
iterations, `none` meaning the loop did not finish (or panicked). -/
def linesLoop : Nat → StringPublicationBody → Nat → Option Nat
  | 0, _, _ => none
  | fuel + 1, p, count =>
    if HasNextLine p then
      match NextLine p with
      | none => none
      | some _ => linesLoop fuel p (count + 1)
    else some count

/-- The word-counting loop shared by `WordCount` (`src/logos.go`) and
`countLinesWords` (`src/logos_test.go`):
`for p.HasNextWord() { p.NextWord(); count++ }`, with the caller's state
unchanged by the value-receiver call. -/
def wordsLoop : Nat → StringPublicationBody → Nat → Option Nat
  | 0, _, _ => none
  | fuel + 1, p, count =>
    if HasNextWord p then
      match NextWord p with
      | none => none
      | some _ => wordsLoop fuel p (count + 1)
    else some count

/-- `WordCount` from `src/logos.go`, with fuel. -/
def WordCount (p : StringPublicationBody) (fuel : Nat) : Option Nat :=
  wordsLoop fuel p 0

/-- `countLinesWords` from `src/logos_test.go`: reset, count lines, reset,
count words. The two `body.ResetSeeker()` calls are value-receiver calls
whose result Go discards, embedded as discarded `let` bindings. -/
def countLinesWords (body : StringPublicationBody) (fuel : Nat) :
    Option (Nat × Nat) :=
  let _ := ResetSeeker body
  match linesLoop fuel body 0 with
  | none => none
  | some lines =>
    let _ := ResetSeeker body
    match wordsLoop fuel body 0 with
    | none => none
    | some words => some (lines, words)

/-- `NGram` from `src/logos.go`. `Size` is a Go `int`, hence `Int`. -/
structure NGram where
  Size : Int
  Words : List (List Char)
deriving DecidableEq, Repr

/-- The character of a single decimal digit, as `strconv` renders it. -/
def digitChar (d : Nat) : Char := Char.ofNat (48 + d)

/-- The repeated-division loop of `strconv` digit formatting: prepend
`n % 10`'s character and continue with `n / 10` until a single digit is
left. The first argument is fuel bounding the number of divisions
(structural recursion; `n + 1` is always enough). -/
def natToCharsAux : Nat → Nat → List Char → List Char
  | 0, _, acc => acc
  | fuel + 1, n, acc =>
    if n < 10 then digitChar n :: acc
    else natToCharsAux fuel (n / 10) (digitChar (n % 10) :: acc)

/-- Decimal rendering of a natural number, most significant digit first;
`0` renders as `"0"`. This is the string `strconv.Itoa` produces for
non-negative input. -/
def natToChars (n : Nat) : List Char := natToCharsAux (n + 1) n []

/-- `strconv.Itoa`: decimal rendering of an integer, with a leading `-`
for negative input. -/
def Itoa (n : Int) : List Char :=
  if n < 0 then '-' :: natToChars n.natAbs else natToChars n.natAbs

/-- Value of one decimal digit character; `none` for a non-digit. -/
def digitVal (c : Char) : Option Nat :=
  if 48 ≤ c.toNat ∧ c.toNat ≤ 57 then some (c.toNat - 48) else none

/-- Accumulating decimal parse of a digit string; `none` as soon as a
non-digit appears. -/
def parseDigits : List Char → Nat → Option Nat
  | [], acc => some acc
  | c :: cs, acc =>
    match digitVal c with
    | some d => parseDigits cs (10 * acc + d)
    | none => none

/-- `strconv.Atoi`: optional `-`/`+` sign followed by at least one
decimal digit. On any syntax error Go returns the error together with
the value 0, and `HashToNGram` discards the error, so the model returns
0 there. (Go's int64 range check is not modelled; `Itoa` output always
parses back exactly.) -/
def Atoi (s : List Char) : Int :=
  match s with
  | [] => 0
  | c :: cs =>
    if c = '-' then
      if cs = [] then 0 else ((parseDigits cs 0).map fun (m : Nat) => -(m : Int)).getD 0
    else if c = '+' then
      if cs = [] then 0 else ((parseDigits cs 0).map fun (m : Nat) => (m : Int)).getD 0
    else ((parseDigits (c :: cs) 0).map fun (m : Nat) => (m : Int)).getD 0

/-- `NGram.Hash` from `src/logos.go`: `strings.Join` of
`[Itoa(Size)] ++ Words` with separator `"."`. -/
def Hash (n : NGram) : List Char :=
  List.intercalate ['.'] (Itoa n.Size :: n.Words)

/-- `HashToNGram` from `src/logos.go`: `strings.Split` on `"."` (which
never returns an empty slice, so `s[0]` is its head), `strconv.Atoi` of
the first piece with the error discarded, remaining pieces as the words. -/
def HashToNGram (hash : List Char) : NGram :=
  let s := hash.splitOn '.'
  ⟨Atoi s.headI, s.tail⟩

/-- `MarkovMatrix` from `src/logos.go`: the nested Go map
`map[string]map[string]float64` is modelled as nested association lists
keyed by the hash strings, with insertion-order representation (Go map
iteration order is unspecified; the map-as-function content is what
matters). -/
structure MarkovMatrix where
  Matrix : List (List Char × List (List Char × ℚ))
deriving DecidableEq, Repr

/-- `CreateMarkovMatrix` from `src/logos.go`: the empty map. -/
def CreateMarkovMatrix : MarkovMatrix := ⟨[]⟩

/-- Association-list lookup (Go map read: `m[k]`, `nil`/missing as
`none`). -/
def lookupKey {β : Type} (k : List Char) : List (List Char × β) → Option β
  | [] => none
  | (k', v) :: rest => if k' = k then some v else lookupKey k rest

/-- Association-list write (Go map write: `m[k] = v`). -/
def setKey {β : Type} (k : List Char) (v : β) : List (List Char × β) → List (List Char × β)
  | [] => [(k, v)]
  | (k', v') :: rest => if k' = k then (k, v) :: rest else (k', v') :: setKey k v rest

/-- `SetProbability` from `src/logos.go`: fetch the row for `i.Hash()`
(creating it when absent), write `prob` at column `j.Hash()`, store the
row back. -/
def SetProbability (m : MarkovMatrix) (i j : NGram) (prob : ℚ) : MarkovMatrix :=
  let entry := (lookupKey (Hash i) m.Matrix).getD []
  ⟨setKey (Hash i) (setKey (Hash j) prob entry) m.Matrix⟩

/-- `GetProbability` from `src/logos.go`: 0.0 when the row or the column
is absent. -/
def GetProbability (m : MarkovMatrix) (i j : NGram) : ℚ :=
  match lookupKey (Hash i) m.Matrix with
  | none => 0
  | some entry => (lookupKey (Hash j) entry).getD 0

/-- Row total used by the normalization phase of `ConstructMarkovMatrix`. -/
def rowTotal (row : List (List Char × ℚ)) : ℚ :=
  row.foldl (fun acc e => acc + e.2) 0

/-- The normalization phase of `ConstructMarkovMatrix` (`src/logos.go`):
for every row `i` of the count matrix, sum the row, then write
`count / total` into a fresh matrix at `(HashToNGram i, HashToNGram j)`
for every column `j` of that row. -/
def normalize (m : MarkovMatrix) : MarkovMatrix :=
  m.Matrix.foldl
    (fun res e =>
      let total := rowTotal e.2
      e.2.foldl
        (fun res2 e2 =>
          let ig := HashToNGram e.1
          let jg := HashToNGram e2.1
          SetProbability res2 ig jg (GetProbability m ig jg / total))
        res)
    CreateMarkovMatrix

/-- The counting loop of `ConstructMarkovMatrix` (`src/logos.go`):
`for p.HasNextWord() { w := p.NextWord(); newWords := append(prevNGram.Words, w);
if len(newWords) == ngramSize+1 { ... } }`. Two features of the Go body
are embedded exactly: the loop never reassigns `prevNGram` (there is no
`prevNGram = ngram` statement), and `p.NextWord()` is a value-receiver
call, so the recursion continues with the same `p` and the same
`prevNGram`. -/
def cmmLoop (ngramSize : Int) :
    Nat → StringPublicationBody → NGram → MarkovMatrix → Option MarkovMatrix
  | 0, _, _, _ => none
  | fuel + 1, p, prevNGram, matrix =>
    if HasNextWord p then
      match NextWord p with
      | none => none
      | some (w, _) =>
        let newWords := prevNGram.Words ++ [w]
        let matrix' :=
          if (newWords.length : Int) = ngramSize + 1 then
            let ngram : NGram := ⟨ngramSize, newWords.drop 1⟩
            let curCount := GetProbability matrix prevNGram ngram
            SetProbability matrix prevNGram ngram (curCount + 1)
          else matrix
        cmmLoop ngramSize fuel p prevNGram matrix'
    else some matrix

/-- `ConstructMarkovMatrix` from `src/logos.go`: run the counting loop
starting from `NGram{ngramSize, []}` and the empty matrix, then
normalize. `none` when the word loop does not finish within `fuel`
iterations. -/
def ConstructMarkovMatrix (p : StringPublicationBody) (ngramSize : Int)
    (fuel : Nat) : Option MarkovMatrix :=
  (cmmLoop ngramSize fuel p ⟨ngramSize, []⟩ CreateMarkovMatrix).map normalize

/-- Body built from `"A B"`: one line, two words. -/
def bodyAB : StringPublicationBody :=
  (CreateStringPubBody (scanLines "A B".toList)).1

/-- Body built from `"A B A B"`: one line, the word stream [A, B, A, B]
of the spec's Markov scenario. -/
def bodyABAB : StringPublicationBody :=
  (CreateStringPubBody (scanLines "A B A B".toList)).1

/-- Body built from `"A"`: a single one-word line. -/
def bodyA : StringPublicationBody :=
  (CreateStringPubBody (scanLines "A".toList)).1

/-- Body built from the test fixture `"A\nB\nC\nD\nE\nF"`: six one-word
lines. -/
def bodySix : StringPublicationBody :=
  (CreateStringPubBody (scanLines "A\nB\nC\nD\nE\nF".toList)).1

/-- Body built from the test fixture `"hell0 df .$34\n\n\n"`. -/
def bodyHell : StringPublicationBody :=
  (CreateStringPubBody (scanLines "hell0 df .$34\n\n\n".toList)).1

/-- A cursor state mid-traversal: line cursor at 1, word cursor at 2. -/
def midState : StringPublicationBody :=
  ⟨["a b c".toList, "d e f".toList], [["a".toList, "b".toList, "c".toList],
    ["d".toList, "e".toList, "f".toList]], 1, 2⟩

/-- Size-2 n-gram whose first word contains the delimiter. -/
def ngDotLeft : NGram := ⟨2, ["a.b".toList, "c".toList]⟩

/-- Size-2 n-gram whose second word contains the delimiter. -/
def ngDotRight : NGram := ⟨2, ["a".toList, "b.c".toList]⟩

/-- A size-2 n-gram used as a common transition target. -/
def ngTarget : NGram := ⟨2, ["x".toList, "y".toList]⟩

/-! ## Helper lemmas -/

/-- The value-receiver loop body leaves the state unchanged, so once
`HasNextLine` holds it holds forever and the line loop never finishes. -/
theorem linesLoop_eq_none (p : StringPublicationBody) (h : HasNextLine p = true) :
    ∀ fuel count, linesLoop fuel p count = none := by
  intro fuel
  induction fuel with
  | zero => intro count; rfl
  | succ n ih =>
    intro count
    simp only [linesLoop, h, if_true]
    cases NextLine p with
    | none => rfl
    | some x => exact ih (count + 1)

/-- Same for the word loop. -/
theorem wordsLoop_eq_none (p : StringPublicationBody) (h : HasNextWord p = true) :
    ∀ fuel count, wordsLoop fuel p count = none := by
  intro fuel
  induction fuel with
  | zero => intro count; rfl
  | succ n ih =>
    intro count
    simp only [wordsLoop, h, if_true]
    cases NextWord p with
    | none => rfl
    | some x => exact ih (count + 1)

/-- Same for the counting loop of `ConstructMarkovMatrix`: neither `p`
nor `prevNGram` changes between iterations, so the loop never finishes
once `HasNextWord p` holds. -/
theorem cmmLoop_eq_none (n : Int) (p : StringPublicationBody)
    (h : HasNextWord p = true) :
    ∀ fuel prev mat, cmmLoop n fuel p prev mat = none := by
  intro fuel
  induction fuel with
  | zero => intro prev mat; rfl
  | succ k ih =>
    intro prev mat
    simp only [cmmLoop, h, if_true]
    cases NextWord p with
    | none => rfl
    | some x => exact ih prev _

/-- The two accumulated sequences of `collectLines` have equal length and
every kept token list is non-empty. -/
theorem collectLines_spec (input : List (List Char)) :
    (collectLines input).1.length = (collectLines input).2.length ∧
      ∀ ws ∈ (collectLines input).2, ws ≠ [] := by
  induction input with
  | nil => exact ⟨rfl, by intro ws hws; cases hws⟩
  | cons line rest ih =>
    simp only [collectLines]
    by_cases h : (splitWords line).length > 0
    · simp only [if_pos h, List.length_cons]
      refine ⟨by rw [ih.1], ?_⟩
      intro ws hws
      rcases List.mem_cons.mp hws with rfl | hws
      · intro hempty
        rw [hempty] at h
        simp at h
      · exact ih.2 ws hws
    · simp only [if_neg h]
      exact ih

/-- `digitVal` inverts `digitChar` on single digits. -/
theorem digitVal_digitChar {d : Nat} (hd : d < 10) :
    digitVal (digitChar d) = some d := by
  interval_cases d <;> decide

/-- Code point of a digit character. -/
theorem digitChar_toNat {d : Nat} (hd : d < 10) : (digitChar d).toNat = 48 + d := by
  interval_cases d <;> decide

/-- Parsing a most-significant-first digit list accumulates its value. -/
theorem parseDigits_map_digitChar {ds : List Nat} (hds : ∀ d ∈ ds, d < 10) :
    ∀ acc, parseDigits (ds.map digitChar) acc =
      some (ds.foldl (fun a d => 10 * a + d) acc) := by
  induction ds with
  | nil => intro acc; rfl
  | cons d rest ih =>
    intro acc
    rw [List.map_cons, List.foldl_cons]
    simp only [parseDigits, digitVal_digitChar (hds d (List.mem_cons_self d rest))]
    exact ih (fun x hx => hds x (List.mem_cons_of_mem d hx)) (10 * acc + d)

/-- Folding base-10 accumulation over the reversed digit list of `n`
recovers `n`. -/
theorem foldl_reverse_digits (n : Nat) :
    ((Nat.digits 10 n).reverse).foldl (fun a d => 10 * a + d) 0 = n := by
  rw [List.foldl_reverse]
  have key : ∀ L : List Nat, L.foldr (fun d a => 10 * a + d) 0 = Nat.ofDigits 10 L := by
    intro L
    induction L with
    | nil => rfl
    | cons d rest ih =>
      rw [List.foldr_cons, ih, Nat.ofDigits_cons]
      ring
  rw [key, Nat.ofDigits_digits]

/-- `natToCharsAux` computes the reversed digit characters, provided the
fuel covers the number of divisions. -/
theorem natToCharsAux_eq_digits :
    ∀ fuel n acc, 0 < n → n ≤ fuel →
      natToCharsAux fuel n acc = ((Nat.digits 10 n).map digitChar).reverse ++ acc := by
  intro fuel
  induction fuel with
  | zero => intro n acc h1 h2; omega
  | succ f ih =>
    intro n acc h1 h2
    rw [natToCharsAux]
    by_cases h10 : n < 10
    · rw [if_pos h10, Nat.digits_def' (by norm_num : (1 : Nat) < 10) h1,
        Nat.mod_eq_of_lt h10, Nat.div_eq_of_lt h10, Nat.digits_zero]
      simp
    · rw [if_neg h10, ih (n / 10) _ (by omega) (by omega),
        Nat.digits_def' (by norm_num : (1 : Nat) < 10) h1]
      simp

/-- `natToChars` in terms of `Nat.digits`. -/
theorem natToChars_eq (n : Nat) :
    natToChars n =
      if n = 0 then [digitChar 0] else ((Nat.digits 10 n).map digitChar).reverse := by
  by_cases h : n = 0
  · subst h; rfl
  · rw [if_neg h, natToChars,
      natToCharsAux_eq_digits (n + 1) n [] (by omega) (by omega), List.append_nil]

/-- `parseDigits` inverts `natToChars`. -/
theorem parseDigits_natToChars (n : Nat) : parseDigits (natToChars n) 0 = some n := by
  by_cases h : n = 0
  · subst h; rfl
  · rw [natToChars_eq, if_neg h, ← List.map_reverse,
      parseDigits_map_digitChar
        (fun d hd => Nat.digits_lt_base (by norm_num) (List.mem_reverse.mp hd)),
      foldl_reverse_digits]

/-- Every character of `natToChars` is a decimal digit character. -/
theorem natToChars_mem_range {c : Char} {n : Nat} (hc : c ∈ natToChars n) :
    48 ≤ c.toNat ∧ c.toNat ≤ 57 := by
  rw [natToChars_eq] at hc
  by_cases h : n = 0
  · rw [if_pos h] at hc
    rcases List.mem_singleton.mp hc with rfl
    decide
  · rw [if_neg h, List.mem_reverse] at hc
    rcases List.mem_map.mp hc with ⟨d, hd, rfl⟩
    have h10 := Nat.digits_lt_base (by norm_num) hd
    rw [digitChar_toNat h10]
    omega

/-- `natToChars` is never empty. -/
theorem natToChars_ne_nil (n : Nat) : natToChars n ≠ [] := by
  rw [natToChars_eq]
  by_cases h : n = 0
  · rw [if_pos h]; simp
  · rw [if_neg h]
    simp only [ne_eq, List.reverse_eq_nil_iff, List.map_eq_nil_iff]
    exact Nat.digits_ne_nil_iff_ne_zero.mpr h

/-- `Atoi` inverts `Itoa`. -/
theorem atoi_itoa (n : Int) : Atoi (Itoa n) = n := by
  rw [Itoa]
  by_cases hneg : n < 0
  · rw [if_pos hneg, Atoi, if_pos rfl, if_neg (natToChars_ne_nil n.natAbs),
      parseDigits_natToChars, Option.map_some', Option.getD_some]
    omega
  · rw [if_neg hneg]
    obtain ⟨c, cs, hcs⟩ : ∃ c cs, natToChars n.natAbs = c :: cs := by
      cases hh : natToChars n.natAbs with
      | nil => exact absurd hh (natToChars_ne_nil _)
      | cons c cs => exact ⟨c, cs, rfl⟩
    have hcmem : 48 ≤ c.toNat ∧ c.toNat ≤ 57 :=
      natToChars_mem_range (hcs ▸ List.mem_cons_self c cs)
    have hp : parseDigits (c :: cs) 0 = some n.natAbs := by
      rw [← hcs]; exact parseDigits_natToChars n.natAbs
    have hcm : c ≠ '-' := by
      intro hEq
      rw [hEq] at hcmem
      revert hcmem
      decide
    have hcp : c ≠ '+' := by
      intro hEq
      rw [hEq] at hcmem
      revert hcmem
      decide
    rw [hcs, Atoi, if_neg hcm, if_neg hcp, hp, Option.map_some', Option.getD_some]
    omega

/-- The delimiter never occurs in `Itoa` output. -/
theorem dot_not_mem_itoa (n : Int) : ('.' : Char) ∉ Itoa n := by
  rw [Itoa]
  by_cases hneg : n < 0
  · rw [if_pos hneg]
    intro hmem
    rcases List.mem_cons.mp hmem with h1 | h2
    · exact absurd h1 (by decide)
    · have := natToChars_mem_range h2
      revert this
      decide
  · rw [if_neg hneg]
    intro hmem
    have := natToChars_mem_range hmem
    revert this
    decide

/-!
## Claims
-/

/-- C1. The spec asserts that every matrix `ConstructMarkovMatrix`
returns from a word stream of length at least `k + 1` has rows whose
normalized weights sum to 1. On the stream `[A, B]` with `k = 1` the
function returns nothing at all: its word loop never terminates, for any
iteration bound. -/
theorem c1_no_normalized_matrix_is_returned :
    ∀ fuel, ConstructMarkovMatrix bodyAB 1 fuel = none := by
  intro fuel
  rw [ConstructMarkovMatrix, cmmLoop_eq_none 1 bodyAB (by decide) fuel]
  rfl

/-- C2. The spec's sliding-window scenario: n-gram size 1 over
`[A, B, A, B]` should give a 2-row matrix. The code's word loop never
terminates on that body (the cursor never advances and `prevNGram` is
never extended), so no matrix is produced, for any iteration bound. -/
theorem c2_sliding_window_scenario_diverges :
    ∀ fuel, ConstructMarkovMatrix bodyABAB 1 fuel = none := by
  intro fuel
  rw [ConstructMarkovMatrix, cmmLoop_eq_none 1 bodyABAB (by decide) fuel]
  rfl

/-- C3. A full line-cursor traversal of the six-line fixture should
yield 6 lines and a full word-cursor traversal 6 words; instead neither
loop of `countLinesWords`, nor `WordCount`, ever finishes. -/
theorem c3_traversal_counts_never_produced :
    ∀ fuel, countLinesWords bodySix fuel = none ∧ WordCount bodySix fuel = none := by
  intro fuel
  constructor
  · rw [countLinesWords, linesLoop_eq_none bodySix (by decide) fuel]
  · rw [WordCount, wordsLoop_eq_none bodySix (by decide) fuel]

/-- C4. With `HasNextWord` true at cursor `(0, 0)` of the body built
from `"A B"`, `NextWord` returns the word `A` together with a state
equal to the input state: the word cursor is not advanced to `(0, 1)`.
(The advance test `len(words) < CurrentWord+1` is false at every valid
read, there is no else-branch increment, and the value receiver would
discard any update anyway.) -/
theorem c4_nextWord_does_not_advance :
    HasNextWord bodyAB = true ∧ NextWord bodyAB = some ("A".toList, bodyAB) := by
  constructor
  · decide
  · decide

/-- C5 counterexample. From the mid-traversal state at line 1, word 2,
using the code's only reset (`ResetSeeker`) as the line-cursor reset
changes the word cursor: it does not stay at its prior position 2. -/
theorem c5_reset_clobbers_word_cursor :
    (ResetSeeker midState).CurrentWord ≠ midState.CurrentWord := by decide

/-- C5 amended. The code has a single combined reset: `ResetSeeker`
returns both cursors of its receiver copy to 0, leaving the content
untouched; it does not preserve the other cursor's position (and, being
a value-receiver method, not even this effect reaches the caller). -/
theorem c5_resetSeeker_zeroes_both_cursors (s : StringPublicationBody) :
    ResetSeeker s = ⟨s.Lines, s.Words, 0, 0⟩ := rfl

/-- C6. The canonical encoding round-trips: decoding the hash of any
n-gram whose words do not contain the delimiter `.` yields an equal
n-gram (same size, same words in order). -/
theorem c6_hashToNGram_hash (n : NGram) (h : ∀ w ∈ n.Words, ('.' : Char) ∉ w) :
    HashToNGram (Hash n) = n := by
  have hx : ∀ l ∈ Itoa n.Size :: n.Words, ('.' : Char) ∉ l := by
    intro l hl
    rcases List.mem_cons.mp hl with rfl | hl
    · exact dot_not_mem_itoa n.Size
    · exact h l hl
  have hsplit :
      List.splitOn '.' (['.'].intercalate (Itoa n.Size :: n.Words)) =
        Itoa n.Size :: n.Words :=
    List.splitOn_intercalate (Itoa n.Size :: n.Words) '.' hx (by simp)
  rw [HashToNGram, Hash]
  show NGram.mk (Atoi (List.splitOn '.' (List.intercalate ['.']
    (Itoa n.Size :: n.Words))).headI) _ = n
  rw [show List.intercalate ['.'] (Itoa n.Size :: n.Words) =
    ['.'].intercalate (Itoa n.Size :: n.Words) from rfl, hsplit]
  show NGram.mk (Atoi (Itoa n.Size)) n.Words = n
  rw [atoi_itoa]

/-- C6 witness: the round trip evaluated at the 1-gram `⟨1, [ab]⟩`. -/
theorem c6_witness :
    HashToNGram (Hash ⟨1, ["ab".toList]⟩) = ⟨1, ["ab".toList]⟩ :=
  c6_hashToNGram_hash ⟨1, ["ab".toList]⟩ (by decide)

/-- C7. For a word stream shorter than `n + 1` the spec expects an empty
matrix; on the one-word body with `n = 2` the code instead never
returns: the word loop does not terminate for any iteration bound. -/
theorem c7_short_stream_diverges_instead_of_empty :
    ∀ fuel, ConstructMarkovMatrix bodyA 2 fuel = none := by
  intro fuel
  rw [ConstructMarkovMatrix, cmmLoop_eq_none 2 bodyA (by decide) fuel]
  rfl

/-- C8 counterexample. The body built from `"hell0 df .$34"` plus blank
lines does not have token list `[hell0, df, 34]`. -/
theorem c8_tokens_are_not_34 :
    bodyHell.Words ≠ [["hell0".toList, "df".toList, "34".toList]] := by decide

/-- C8 amended. That body retains exactly one line and tokenizes it into
the 3 words `hell0`, `df`, `$34`: the `$` is a Unicode currency symbol,
not punctuation, so Go's `unicode.IsPunct` does not treat it as a
separator and it stays in the token. -/
theorem c8_one_line_three_words :
    bodyHell.Lines = ["hell0 df .$34".toList] ∧
      bodyHell.Words = [["hell0".toList, "df".toList, "$34".toList]] := by decide

/-- C9. The canonical encoding is not injective: the two distinct size-2
n-grams `[a.b, c]` and `[a, b.c]` share the hash `2.a.b.c`, and a
`SetProbability` through one overwrites the entry read through the
other (first write stores 1, the second write of 2 through the colliding
key replaces it). -/
theorem c9_hash_collision_overwrites :
    Hash ngDotLeft = Hash ngDotRight ∧ ngDotLeft ≠ ngDotRight ∧
      GetProbability (SetProbability CreateMarkovMatrix ngDotLeft ngTarget 1)
        ngDotLeft ngTarget = 1 ∧
      GetProbability (SetProbability (SetProbability CreateMarkovMatrix
        ngDotLeft ngTarget 1) ngDotRight ngTarget 2) ngDotLeft ngTarget = 2 := by
  refine ⟨by decide, by decide, by decide, by decide⟩

/-- C10. `CreateStringPubBody` never fails: on every line sequence the
error component is `nil`, the retained `Lines` and `Words` have equal
length, every retained word list is non-empty, and both cursors start
at 0. -/
theorem c10_createStringPubBody_total (input : List (List Char)) :
    (CreateStringPubBody input).2 = none ∧
      (CreateStringPubBody input).1.Lines.length =
        (CreateStringPubBody input).1.Words.length ∧
      (∀ ws ∈ (CreateStringPubBody input).1.Words, ws ≠ []) ∧
      (CreateStringPubBody input).1.CurrentLine = 0 ∧
      (CreateStringPubBody input).1.CurrentWord = 0 :=
  ⟨rfl, (collectLines_spec input).1, (collectLines_spec input).2, rfl, rfl⟩

end Logos
